import Mathlib

/-!
Verification of the recipe ratio calculator (src/calculator/book.py,
src/calculator/recipe.py) against its natural-language specification.

The Python code is shallowly embedded: dictionaries become association
lists kept in insertion order (Python dicts preserve insertion order),
the float/Fraction numeric domain becomes `ℚ` (the spec's design note 9
models the two runtime domains as one abstract numeric domain chosen per
run; every claim checked here is about exact quantities), exceptions
become `Except String`, and the unbounded `while pending_changes` loop of
`RecipeBook._propagate` is given an explicit fuel parameter (`none` means
the fuel ran out, i.e. the source loop had not finished after that many
pops).  Python's `set` of pending recipe names is modelled as a
duplicate-free list popped from the front; the set's iteration order is
implementation defined in the source, and no claim below depends on it.
-/

/-- Lookup in an association list, mirroring `d.get(k)` on a Python dict
(first binding wins; the lists built here never hold duplicate keys). -/
def dictLookup {α : Type} : List (String × α) → String → Option α
  | [], _ => none
  | (k, v) :: rest, key => if k = key then some v else dictLookup rest key

/-- Update-or-append on an association list, mirroring `d[k] = v` on a
Python dict: an existing key keeps its position, a new key is appended. -/
def dictInsert {α : Type} : List (String × α) → String → α → List (String × α)
  | [], key, val => [(key, val)]
  | (k, v) :: rest, key, val =>
    if k = key then (k, val) :: rest else (k, v) :: dictInsert rest key val

theorem dictLookup_dictInsert {α : Type} (m : List (String × α)) (k : String) (v : α)
    (key : String) :
    dictLookup (dictInsert m k v) key = if k = key then some v else dictLookup m key := by
  induction m with
  | nil => simp [dictLookup, dictInsert]
  | cons p rest ih =>
    obtain ⟨k', v'⟩ := p
    by_cases h1 : k' = k
    · subst h1
      by_cases h2 : k' = key <;> simp [dictLookup, dictInsert, h2]
    · by_cases h2 : k' = key
      · subst h2
        have : ¬ k = k' := fun h => h1 h.symm
        simp [dictLookup, dictInsert, h1, this]
      · simp [dictLookup, dictInsert, h1, h2, ih]

/-- src/calculator/recipe.py `Crafter`: a machine archetype with an
efficiency multiplier. -/
structure Crafter where
  name : String
  efficiency : ℚ
deriving DecidableEq

/-- src/calculator/recipe.py `Recipe`: named per-batch transformation with
input and output quantity maps, a duration and an ordered crafter list. -/
structure Recipe where
  name : String
  inputs : List (String × ℚ)
  outputs : List (String × ℚ)
  duration : ℚ
  crafters : List Crafter
deriving DecidableEq

/-- Source `Recipe.efficiency`: 1 if no crafters, else the head crafter's
efficiency. -/
def Recipe.efficiency (r : Recipe) : ℚ :=
  match r.crafters with
  | [] => 1
  | c :: _ => c.efficiency

/-- Source `Recipe.produces`: membership test on the output map. -/
def Recipe.produces (r : Recipe) (resource : String) : Bool :=
  (dictLookup r.outputs resource).isSome

/-- Source `Recipe.requires`: membership test on the input map. -/
def Recipe.requires (r : Recipe) (resource : String) : Bool :=
  (dictLookup r.inputs resource).isSome

/-- Source `Recipe.produced(resource, batches)` =
`outputs.get(resource, 0) * (efficiency / duration) * batches`. -/
def Recipe.produced (r : Recipe) (resource : String) (batches : ℚ) : ℚ :=
  ((dictLookup r.outputs resource).getD 0) * (r.efficiency / r.duration) * batches

/-- Source `Recipe.consumed(resource, batches)` =
`inputs.get(resource, 0) * (efficiency / duration) * batches`. -/
def Recipe.consumed (r : Recipe) (resource : String) (batches : ℚ) : ℚ :=
  ((dictLookup r.inputs resource).getD 0) * (r.efficiency / r.duration) * batches

/-- Source `Recipe.batches_required(resource, quantity)`: inputs are checked
first, then outputs; 0 when the recipe neither consumes nor produces the
resource. -/
def Recipe.batches_required (r : Recipe) (resource : String) (quantity : ℚ) : ℚ :=
  match dictLookup r.inputs resource with
  | some i => quantity / (i * (r.efficiency / r.duration))
  | none =>
    match dictLookup r.outputs resource with
    | some o => quantity / (o * (r.efficiency / r.duration))
    | none => 0

/-- src/calculator/book.py `AvailableResources`: `available` is never
mutated, `used` records what has been drawn. -/
structure AvailableResources where
  available : List (String × ℚ)
  used : List (String × ℚ)
deriving DecidableEq

/-- Source `AvailableResources.remaining(resource)` = available − used (0 for
untracked keys, as `d.get(r) or 0` in the source). -/
def AvailableResources.remaining (ar : AvailableResources) (resource : String) : ℚ :=
  (dictLookup ar.available resource).getD 0 - (dictLookup ar.used resource).getD 0

/-- Source `AvailableResources.use(resource, qty)`: returns the unsatisfied
excess and the updated ledger.  Mirrors the three branches of the source:
positive draw (untracked resources are wholly unsatisfied), negative
un-draw (only resources already in `used` are touched, `used` is floored
at 0), and the zero no-op. -/
def AvailableResources.use (ar : AvailableResources) (resource : String) (qty : ℚ) :
    ℚ × AvailableResources :=
  if 0 < qty then
    match dictLookup ar.available resource with
    | none => (qty, ar)
    | some _ =>
      let excess := max 0 (qty - ar.remaining resource)
      let usedAmt := qty - excess
      (excess,
        ⟨ar.available,
          dictInsert ar.used resource (((dictLookup ar.used resource).getD 0) + usedAmt)⟩)
  else if qty < 0 then
    match dictLookup ar.used resource with
    | none => (qty, ar)
    | some initiallyUsed =>
      (initiallyUsed - max initiallyUsed (-qty),
        ⟨ar.available, dictInsert ar.used resource (max 0 (initiallyUsed + qty))⟩)
  else (0, ar)

/-- src/calculator/book.py `Calculations`: targets, the availability
ledger, `recipes : name → (requested, required)` and
`resources : name → (demand, produced)`. -/
structure Calculations where
  targets : List (String × ℚ)
  ar : AvailableResources
  recipes : List (String × (ℚ × ℚ))
  resources : List (String × (ℚ × ℚ))
deriving DecidableEq

namespace Calculations

/-- Source `Calculations.requested(resource)`: the user target for the resource. -/
def requested (c : Calculations) (resource : String) : ℚ :=
  (dictLookup c.targets resource).getD 0

/-- The demand component of a resource entry (first element of the pair
stored in `Calculations.resources`, per the source's comments and the
destructuring in `Calculations.excess`). -/
def demand (c : Calculations) (resource : String) : ℚ :=
  ((dictLookup c.resources resource).getD (0, 0)).1

/-- Source `Calculations.produced(resource)`: second element of the resource
entry. -/
def produced (c : Calculations) (resource : String) : ℚ :=
  ((dictLookup c.resources resource).getD (0, 0)).2

/-- Source `Calculations.excess(resource)` = produced − demand. -/
def excess (c : Calculations) (resource : String) : ℚ :=
  c.produced resource - c.demand resource

/-- Source `Calculations.leftover(resource)` = the ledger's remaining amount. -/
def leftover (c : Calculations) (resource : String) : ℚ :=
  c.ar.remaining resource

/-- Source `Calculations.supplied(resource)`: the initially available amount. -/
def supplied (c : Calculations) (resource : String) : ℚ :=
  (dictLookup c.ar.available resource).getD 0

/-- Source `Calculations.consumed(resource)` = (demand + initially-available-used)
− requested. -/
def consumed (c : Calculations) (resource : String) : ℚ :=
  (c.demand resource + (dictLookup c.ar.used resource).getD 0) - c.requested resource

/-- The required batches of a recipe (second element of the pair stored in
`Calculations.recipes`, the column `tabulate_recipes` prints as
`Required`). -/
def required (c : Calculations) (name : String) : ℚ :=
  ((dictLookup c.recipes name).getD (0, 0)).2

end Calculations

/-- src/calculator/book.py `RecipeBook`: `recipes` models the values of
the `_recipes` dict in insertion order (keyed by `Recipe.name`),
`resources` the `_resources` set, `defaults` the `_defaults` dict whose
values may be an explicit `none` (forced raw resource). -/
structure RecipeBook where
  recipes : List Recipe
  resources : List String
  defaults : List (String × Option Recipe)
deriving DecidableEq

namespace RecipeBook

/-- Source `RecipeBook.get` / `__getitem__`: find a recipe by name. -/
def get (b : RecipeBook) (name : String) : Option Recipe :=
  b.recipes.find? (fun r => r.name == name)

/-- Source `RecipeBook.is_recipe`. -/
def is_recipe (b : RecipeBook) (identifier : String) : Bool :=
  (b.get identifier).isSome

/-- Source `RecipeBook.is_resource`. -/
def is_resource (b : RecipeBook) (identifier : String) : Bool :=
  b.resources.contains identifier

/-- Source `RecipeBook.get_recipe_for` of src/calculator/book.py: an entry in
`_defaults` (even an explicit `None`) wins; otherwise the producing
recipes are filtered out of the book in insertion order and the first is
returned (for a single producer this is the unique recipe, for several
the source prints a warning and still picks the first; it performs no
write to `_defaults`). -/
def get_recipe_for (b : RecipeBook) (resource : String) : Option Recipe :=
  match dictLookup b.defaults resource with
  | some d => d
  | none =>
    match b.recipes.filter (fun r => r.produces resource) with
    | [] => none
    | r :: _ => some r

/-- Source `RecipeBook.get_recipe_for` with the receiver threaded explicitly, to
make the method's (absence of) mutation visible: the body of the
src/calculator/book.py method only reads `_defaults` and `_recipes` and
assigns to neither, so the resulting book is the argument itself. -/
def get_recipe_for_call (b : RecipeBook) (resource : String) : Option Recipe × RecipeBook :=
  match dictLookup b.defaults resource with
  | some d => (d, b)
  | none =>
    match b.recipes.filter (fun r => r.produces resource) with
    | [] => (none, b)
    | r :: _ => (some r, b)

/-- Source `RecipeBook.is_raw_resource`. -/
def is_raw_resource (b : RecipeBook) (resource : String) : Bool :=
  (b.get_recipe_for resource).isNone

/-- Source `RecipeBook.set_default_recipe(resource, recipe)`: `ParseError` when
the resource (or a non-`None` recipe name) is unknown, else records the
override — including an explicit `None`. -/
def set_default_recipe (b : RecipeBook) (resource : String) (recipe : Option String) :
    Except String RecipeBook :=
  if b.is_resource resource = false then
    Except.error ("Resource '" ++ resource ++ "' not defined.")
  else
    match recipe with
    | none => Except.ok { b with defaults := dictInsert b.defaults resource none }
    | some rname =>
      match b.get rname with
      | none => Except.error ("Recipe '" ++ rname ++ "' not defined.")
      | some r => Except.ok { b with defaults := dictInsert b.defaults resource (some r) }

end RecipeBook

/-- The target-seeding loop at the top of `RecipeBook.calculate`
(src/calculator/book.py lines 302-321): resource targets are first
offset against the ledger, raw resources are recorded as
`(unmet, unmet)`, produced resources as `(unmet, 0)` while their
producing recipe's entry is reset to `(0, 0)`; recipe targets are
recorded as `(required, 0)`; anything else raises the
unrecognized-identifier error. -/
def seedTargets (book : RecipeBook) :
    List (String × ℚ) → Calculations → Except String Calculations
  | [], calcs => Except.ok calcs
  | (target, required) :: rest, calcs =>
    if book.is_resource target then
      let ru := calcs.ar.use target required
      match book.get_recipe_for target with
      | none =>
        seedTargets book rest
          { calcs with
            ar := ru.2,
            resources := dictInsert calcs.resources target (ru.1, ru.1) }
      | some recipe =>
        seedTargets book rest
          { calcs with
            ar := ru.2,
            resources := dictInsert calcs.resources target (ru.1, 0),
            recipes := dictInsert calcs.recipes recipe.name (0, 0) }
    else if book.is_recipe target then
      seedTargets book rest { calcs with recipes := dictInsert calcs.recipes target (required, 0) }
    else
      Except.error ("Unrecognized identifier: " ++ target)

/-- Python `set.add` on the pending worklist, modelled as append-if-absent
on a duplicate-free list. -/
def addPending (pending : List String) (name : String) : List String :=
  if pending.contains name then pending else pending ++ [name]

/-- Step 2 of `RecipeBook._propagate`: fold over the recipe's outputs
raising the batch delta to close every unsatisfied gap of a resource for
which this is the active recipe (the `batches < 0` arm mirrors the
source's `pass`; it is unreachable because the start value is clamped at
0 and only raised). -/
def computeBatches (book : RecipeBook) (recipe : Recipe)
    (resources : List (String × (ℚ × ℚ))) :
    List (String × ℚ) → ℚ → ℚ
  | [], batches => batches
  | (resource, _) :: rest, batches =>
    let dp := (dictLookup resources resource).getD (0, 0)
    if batches < 0 then
      computeBatches book recipe resources rest
        (max batches (recipe.batches_required resource (dp.1 - dp.2)))
    else if dp.1 ≤ dp.2 ∨ book.get_recipe_for resource ≠ some recipe then
      computeBatches book recipe resources rest batches
    else
      computeBatches book recipe resources rest
        (max batches (recipe.batches_required resource (dp.1 - dp.2)))

/-- Step 3 of `RecipeBook._propagate`: for every input resource, draw the
new consumption from the ledger first, add only the unmet remainder to
the demand, mirror demand into produced for raw resources, and re-queue
the producing recipe otherwise. -/
def processInputs (book : RecipeBook) (rr : Bool) (recipe : Recipe) (batches : ℚ) :
    List (String × ℚ) → List String → AvailableResources → List (String × (ℚ × ℚ)) →
    List String × AvailableResources × List (String × (ℚ × ℚ))
  | [], pending, ar, resources => (pending, ar, resources)
  | (resource, _) :: rest, pending, ar, resources =>
    let consumedQ := recipe.consumed resource batches
    let consumedQ := if rr then ((⌈consumedQ⌉ : ℤ) : ℚ) else consumedQ
    let ua := ar.use resource consumedQ
    let counts := (dictLookup resources resource).getD (0, 0)
    let demand := counts.1 + ua.1
    match book.get_recipe_for resource with
    | none =>
      processInputs book rr recipe batches rest pending ua.2
        (dictInsert resources resource (demand, demand))
    | some r2 =>
      processInputs book rr recipe batches rest (addPending pending r2.name) ua.2
        (dictInsert resources resource (demand, counts.2))

/-- Step 4 of `RecipeBook._propagate`: add the new production of every
output resource (floored when resource rounding is on). -/
def processOutputs (rr : Bool) (recipe : Recipe) (batches : ℚ) :
    List (String × ℚ) → List (String × (ℚ × ℚ)) → List (String × (ℚ × ℚ))
  | [], resources => resources
  | (resource, _) :: rest, resources =>
    let counts := (dictLookup resources resource).getD (0, 0)
    let producedQ := counts.2 + recipe.produced resource batches
    let producedQ := if rr then ((⌊producedQ⌋ : ℤ) : ℚ) else producedQ
    processOutputs rr recipe batches rest (dictInsert resources resource (counts.1, producedQ))

/-- The body of one pop of the `while pending_changes` loop of
`RecipeBook._propagate` (steps 2-4): returns the new pending list, the
flag saying whether this pop changed anything, and the updated
calculations. -/
def runRecipe (book : RecipeBook) (rb rr : Bool) (recipe : Recipe) (rest : List String)
    (calcs : Calculations) : List String × Bool × Calculations :=
  let base := (dictLookup calcs.recipes recipe.name).getD (0, 0)
  let batches := computeBatches book recipe calcs.resources recipe.outputs
    (max 0 (base.1 - base.2))
  let batches := if rb then ((⌈batches⌉ : ℤ) : ℚ) else batches
  if batches = 0 then (rest, false, calcs)
  else
    let t := processInputs book rr recipe batches recipe.inputs rest calcs.ar calcs.resources
    let resources2 := processOutputs rr recipe batches recipe.outputs t.2.2
    (t.1, true,
      { calcs with
        ar := t.2.1,
        recipes := dictInsert calcs.recipes recipe.name (base.1, base.2 + batches),
        resources := resources2 })

/-- The `while pending_changes` loop of `RecipeBook._propagate`, with an
explicit fuel bound on the number of pops; `none` means the loop had not
finished within the fuel (the source loop is unbounded).  A popped name
missing from the book would be a `KeyError` in the source and is also
mapped to `none`; it never occurs for books whose `get_recipe_for`
results are the book's own recipes. -/
def propagateAux (book : RecipeBook) (rb rr : Bool) (fuel : ℕ) (pending : List String)
    (changed : Bool) (calcs : Calculations) : Option (Calculations × Bool) :=
  match pending with
  | [] => some (calcs, changed)
  | name :: rest =>
    match fuel with
    | 0 => none
    | fuel' + 1 =>
      match book.get name with
      | none => none
      | some recipe =>
        let t := runRecipe book rb rr recipe rest calcs
        propagateAux book rb rr fuel' t.1 (changed || t.2.1) t.2.2

/-- Source `RecipeBook._propagate`: the pending set starts as the keys of
`calcs.recipes`. -/
def propagate (book : RecipeBook) (rb rr : Bool) (fuel : ℕ) (calcs : Calculations) :
    Option (Calculations × Bool) :=
  propagateAux book rb rr fuel (calcs.recipes.map Prod.fst) false calcs

/-- The `for _ in range(max_iterations)` loop of `RecipeBook.calculate`:
runs `propagate` until it reports no change or the cap is exhausted,
returning the final calculations, the final `changed` flag (the
non-optimal warning is printed exactly when it is still true), and the
number of `propagate` invocations performed. -/
def calcLoop (book : RecipeBook) (rb rr : Bool) (fuel : ℕ) :
    ℕ → Calculations → Option (Calculations × Bool × ℕ)
  | 0, calcs => some (calcs, false, 0)
  | n + 1, calcs =>
    match propagate book rb rr fuel calcs with
    | none => none
    | some (calcs', changed) =>
      if changed then
        match n with
        | 0 => some (calcs', true, 1)
        | m + 1 =>
          match calcLoop book rb rr fuel (m + 1) calcs' with
          | none => none
          | some (c, w, k) => some (c, w, k + 1)
      else
        some (calcs', false, 1)

/-- Source `RecipeBook.calculate(targets, available_resource, round_batches,
round_resources, max_iterations)` over the exact-rational domain:
`Except.error` is the unrecognized-target `RuntimeError`, `Except.ok none`
means some propagation pass ran out of fuel (the source would still be
looping), and `Except.ok (some (calcs, warned))` is a normal return with
`warned` the final `changed` flag. -/
def calculate (book : RecipeBook) (targets : List (String × ℚ))
    (available_resource : List (String × ℚ)) (rb rr : Bool) (max_iterations : ℕ)
    (fuel : ℕ) : Except String (Option (Calculations × Bool)) :=
  match seedTargets book targets
      { targets := targets, ar := ⟨available_resource, []⟩, recipes := [],
        resources := [] } with
  | Except.error e => Except.error e
  | Except.ok calcs =>
    match calcLoop book rb rr fuel max_iterations calcs with
    | none => Except.ok none
    | some (c, warned, _) => Except.ok (some (c, warned))

/-- Projection used to state concrete-run theorems: the calculations and
warning flag of a run that returned normally. -/
def runResult (r : Except String (Option (Calculations × Bool))) :
    Option (Calculations × Bool) :=
  match r with
  | Except.ok (some cw) => some cw
  | _ => none

/-! ### Concrete books used by the claims -/

/-- Recipe `A {1 x} -> {1 y, 1 z}` of the spec's byproduct-cycle test. -/
def cycleA : Recipe := ⟨"A", [("x", 1)], [("y", 1), ("z", 1)], 1, []⟩

/-- Recipe `B {1 z} -> {1 x}` of the spec's byproduct-cycle test. -/
def cycleB : Recipe := ⟨"B", [("z", 1)], [("x", 1)], 1, []⟩

/-- The two-recipe byproduct-cycle book; its resource set is the union of
the recipes' inputs and outputs. -/
def bookCycle : RecipeBook := ⟨[cycleA, cycleB], ["x", "y", "z"], []⟩

/-- Recipe `R {2 wood} -> {1 plank}` of the spec's round-trip test. -/
def plankR : Recipe := ⟨"R", [("wood", 2)], [("plank", 1)], 1, []⟩

/-- The one-recipe round-trip book. -/
def bookPlank : RecipeBook := ⟨[plankR], ["wood", "plank"], []⟩

/-- Recipe `T {1 w} -> {1 y}`: a recipe that produces a resource the user
can also target directly. -/
def minT : Recipe := ⟨"T", [("w", 1)], [("y", 1)], 1, []⟩

/-- Book for the user-mandated-minimum claim. -/
def bookMin : RecipeBook := ⟨[minT], ["w", "y"], []⟩

/-- Recipe `A {2 x} -> {1 y}` of an amplifying cycle (each unit of `y`
needs two of `x`, each unit of `x` needs two of `y`). -/
def ampA : Recipe := ⟨"A", [("x", 2)], [("y", 1)], 1, []⟩

/-- Recipe `B {2 y} -> {1 x}` of the amplifying cycle. -/
def ampB : Recipe := ⟨"B", [("y", 2)], [("x", 1)], 1, []⟩

/-- The amplifying-cycle book: demands grow by a factor of four per round
of the worklist, so the `while pending_changes` loop never empties. -/
def bookAmp : RecipeBook := ⟨[ampA, ampB], ["x", "y"], []⟩

/-! ### C1 -/

/-- C1: on the byproduct cycle `A {1 x} -> {1 y, 1 z}`, `B {1 z} -> {1 x}`
with target `5 y`, no available resources and no rounding, `calculate`
with the default cap of 10 converges without the non-optimal warning to
required(A) = required(B) = 5, with `z` and `x` internally balanced
(produced = demand) and the net external demand for `x` zero
(produced(x) = consumed(x)). -/
theorem calculate_byproduct_cycle :
    (runResult (calculate bookCycle [("y", 5)] [] false false 10 20)).map (fun cw =>
      (cw.2, cw.1.required "A", cw.1.required "B",
        cw.1.produced "z" - cw.1.demand "z", cw.1.produced "x" - cw.1.demand "x",
        cw.1.produced "x" - cw.1.consumed "x")) =
      some (false, 5, 5, 0, 0, 0) := by with_unfolding_all rfl

/-! ### C6 -/

/-- C6: `R {2 wood} -> {1 plank}`, target `10 plank`, `5 wood` on hand, no
rounding: required(R) = 10, leftover(wood) = 0, supplied(wood) = 5,
demand(wood) = 15 and consumed(wood) = 20. -/
theorem calculate_round_trip :
    (runResult (calculate bookPlank [("plank", 10)] [("wood", 5)] false false 10 20)).map
      (fun cw =>
        (cw.1.required "R", cw.1.leftover "wood", cw.1.supplied "wood",
          cw.1.demand "wood", cw.1.consumed "wood")) =
      some (10, 0, 5, 15, 20) := by with_unfolding_all rfl

/-! ### C2 -/

/-- C2, evaluation at the failing input: with targets `T ↦ 5` (a recipe
with output `y`) followed by `y ↦ 3`, seeding the resource target `y`
resets the already-seeded entry of its producing recipe `T` to `(0, 0)`
(src/calculator/book.py line 317), so the run returns required(T) = 3,
below the user-mandated minimum of 5 batches. -/
theorem calculate_min_batches_lost :
    (runResult (calculate bookMin [("T", 5), ("y", 3)] [] false false 10 20)).map
      (fun cw => cw.1.required "T") = some 3 ∧ ¬ ((3 : ℚ) ≥ 5) := by
  constructor
  · with_unfolding_all rfl
  · norm_num

/-! ### C4 -/

/-- The `AvailableResources` ledger invariant: every tracked entry of
`used` lies between 0 and the corresponding available amount. -/
def UsedWithinAvailable (ar : AvailableResources) : Prop :=
  ∀ r u, dictLookup ar.used r = some u →
    0 ≤ u ∧ u ≤ (dictLookup ar.available r).getD 0

/-- Run a finite sequence of `use` calls against a ledger. -/
def useAll (ar : AvailableResources) : List (String × ℚ) → AvailableResources
  | [] => ar
  | (r, q) :: rest => useAll (ar.use r q).2 rest

/-- A `use` call never touches the `available` map (the source only ever
assigns to `self.used`). -/
theorem use_available (ar : AvailableResources) (r : String) (q : ℚ) :
    ((ar.use r q).2).available = ar.available := by
  unfold AvailableResources.use
  by_cases hq : 0 < q
  · rw [if_pos hq]
    cases hl : dictLookup ar.available r <;> simp [hl]
  · rw [if_neg hq]
    by_cases hq' : q < 0
    · rw [if_pos hq']
      cases hl : dictLookup ar.used r <;> simp [hl]
    · rw [if_neg hq']

/-- A single `use` call preserves the ledger invariant whenever the
available quantities are non-negative. -/
theorem use_preserves_inv (ar : AvailableResources) (r : String) (q : ℚ)
    (hav : ∀ s a, dictLookup ar.available s = some a → 0 ≤ a)
    (h : UsedWithinAvailable ar) : UsedWithinAvailable (ar.use r q).2 := by
  unfold AvailableResources.use
  by_cases hq : 0 < q
  · rw [if_pos hq]
    cases hl : dictLookup ar.available r with
    | none => exact h
    | some a =>
      intro s u hu
      simp only [dictLookup_dictInsert] at hu
      by_cases hrs : r = s
      · rw [if_pos hrs] at hu
        subst hrs
        obtain rfl : ((dictLookup ar.used r).getD 0)
            + (q - max 0 (q - ar.remaining r)) = u := Option.some.inj hu
        have hold : 0 ≤ (dictLookup ar.used r).getD 0 ∧
            (dictLookup ar.used r).getD 0 ≤ a := by
          cases hu0 : dictLookup ar.used r with
          | none => simpa using hav r a hl
          | some u0 =>
            have := h r u0 hu0
            rw [hl] at this
            simpa [hu0] using this
        have hrem : ar.remaining r = a - (dictLookup ar.used r).getD 0 := by
          unfold AvailableResources.remaining
          rw [hl]
          simp
        rw [hl]
        simp only [Option.getD_some]
        rw [hrem]
        have e1 : max 0 (q - (a - (dictLookup ar.used r).getD 0)) ≤ q :=
          max_le hq.le (by linarith [hold.2])
        have e2 : q - (a - (dictLookup ar.used r).getD 0) ≤
            max 0 (q - (a - (dictLookup ar.used r).getD 0)) := le_max_right _ _
        exact ⟨by linarith [hold.1], by linarith [hold.2]⟩
      · rw [if_neg hrs] at hu
        exact h s u hu
  · rw [if_neg hq]
    by_cases hq' : q < 0
    · rw [if_pos hq']
      cases hl : dictLookup ar.used r with
      | none => exact h
      | some u0 =>
        intro s u hu
        simp only [dictLookup_dictInsert] at hu
        by_cases hrs : r = s
        · rw [if_pos hrs] at hu
          subst hrs
          obtain rfl : max 0 (u0 + q) = u := Option.some.inj hu
          have hold := h r u0 hl
          refine ⟨le_max_left _ _, ?_⟩
          apply max_le
          · linarith [hold.1, hold.2]
          · linarith [hold.1, hold.2]
        · rw [if_neg hrs] at hu
          exact h s u hu
    · rw [if_neg hq']
      exact h

/-- C4: starting from a ledger whose `available` map holds only
non-negative quantities and an empty `used` map, after any finite
sequence of `use` calls (with positive, negative or zero quantities)
every resource tracked in `used` satisfies `0 ≤ used[r] ≤ available[r]`.
Since every prefix of a call sequence is itself a call sequence, the
invariant holds after every call. -/
theorem availableResources_use_inv (avail : List (String × ℚ))
    (hav : ∀ r a, dictLookup avail r = some a → 0 ≤ a)
    (calls : List (String × ℚ)) :
    UsedWithinAvailable (useAll ⟨avail, []⟩ calls) := by
  have h0 : UsedWithinAvailable ⟨avail, []⟩ := by
    intro r u h
    simp [dictLookup] at h
  suffices H : ∀ (cs : List (String × ℚ)) (ar : AvailableResources),
      ar.available = avail → UsedWithinAvailable ar → UsedWithinAvailable (useAll ar cs) by
    exact H calls ⟨avail, []⟩ rfl h0
  intro cs
  induction cs with
  | nil => intro ar _ h; exact h
  | cons c rest ih =>
    intro ar hA h
    obtain ⟨r, q⟩ := c
    refine ih (ar.use r q).2 ?_ ?_
    · rw [use_available, hA]
    · refine use_preserves_inv ar r q ?_ h
      rw [hA]
      exact hav

/-- Witness for C4 at a concrete ledger and call sequence. -/
theorem availableResources_use_inv_witness :
    UsedWithinAvailable
      (useAll ⟨[("wood", 5)], []⟩ [("wood", 3), ("wood", 4), ("wood", -2)]) := by
  refine availableResources_use_inv [("wood", 5)] ?_ _
  intro r a h
  simp only [dictLookup] at h
  by_cases hr : "wood" = r
  · rw [if_pos hr] at h
    obtain rfl : (5 : ℚ) = a := Option.some.inj h
    norm_num
  · rw [if_neg hr] at h
    exact absurd h (by simp)

/-! ### C5 -/

/-- The seeding loop fails with the unrecognized-identifier error whenever
some target is neither a resource nor a recipe of the book, no matter what
has been seeded before it. -/
theorem seedTargets_error (book : RecipeBook) :
    ∀ (ts : List (String × ℚ)) (calcs : Calculations),
      (∃ p ∈ ts, book.is_resource p.1 = false ∧ book.is_recipe p.1 = false) →
      ∃ e, seedTargets book ts calcs = Except.error e := by
  intro ts
  induction ts with
  | nil =>
    intro calcs h
    obtain ⟨p, hp, _⟩ := h
    simp at hp
  | cons t rest ih =>
    intro calcs h
    obtain ⟨target, required⟩ := t
    obtain ⟨p, hp, h1, h2⟩ := h
    by_cases hres : book.is_resource target
    · have hmem : p ∈ rest := by
        rcases List.mem_cons.mp hp with heq | hmem
        · exfalso
          subst heq
          dsimp only at h1
          rw [h1] at hres
          exact absurd hres (by simp)
        · exact hmem
      cases hg : book.get_recipe_for target with
      | none =>
        simp only [seedTargets, hres, if_true, hg]
        exact ih _ ⟨p, hmem, h1, h2⟩
      | some recipe =>
        simp only [seedTargets, hres, if_true, hg]
        exact ih _ ⟨p, hmem, h1, h2⟩
    · by_cases hrec : book.is_recipe target
      · have hmem : p ∈ rest := by
          rcases List.mem_cons.mp hp with heq | hmem
          · exfalso
            subst heq
            dsimp only at h2
            rw [h2] at hrec
            exact absurd hrec (by simp)
          · exact hmem
        simp only [seedTargets, hres, hrec, if_true, if_false]
        exact ih _ ⟨p, hmem, h1, h2⟩
      · refine ⟨"Unrecognized identifier: " ++ target, ?_⟩
        simp [seedTargets, hres, hrec]

/-- C5: a targets mapping containing an identifier that is neither a known
recipe nor a known resource makes `calculate` fail with the
unrecognized-identifier error: the error is raised while seeding the
targets, before the first propagation pass, and the error return carries
no `Calculations` value.  (In the source no caller-visible state is
written before this point: the ledger's fresh `used` dict and the new
`Calculations` are the only structures mutated by seeding, and
`get_recipe_for` of src/calculator/book.py writes nothing.) -/
theorem calculate_unrecognized_target (book : RecipeBook)
    (targets avail : List (String × ℚ)) (rb rr : Bool) (mi fuel : ℕ)
    (h : ∃ p ∈ targets, book.is_resource p.1 = false ∧ book.is_recipe p.1 = false) :
    ∃ e, calculate book targets avail rb rr mi fuel = Except.error e := by
  obtain ⟨e, he⟩ := seedTargets_error book targets
    { targets := targets, ar := ⟨avail, []⟩, recipes := [], resources := [] } h
  refine ⟨e, ?_⟩
  simp only [calculate, he]

/-- Witness for C5: the target `foo` is neither a recipe nor a resource of
the plank book. -/
theorem calculate_unrecognized_target_witness :
    ∃ e, calculate bookPlank [("foo", 1)] [] false false 10 10 = Except.error e :=
  calculate_unrecognized_target bookPlank [("foo", 1)] [] false false 10 10
    ⟨("foo", 1), by decide, by decide, by decide⟩

/-! ### C10 -/

/-- C10: for a known resource, `set_default_recipe(resource, None)`
succeeds and afterwards `get_recipe_for` returns `None` and
`is_raw_resource` is true, whatever recipes produce the resource. -/
theorem set_default_none_forces_raw (book : RecipeBook) (r : String)
    (h : book.is_resource r = true) :
    ∃ book2, book.set_default_recipe r none = Except.ok book2 ∧
      book2.get_recipe_for r = none ∧ book2.is_raw_resource r = true := by
  refine ⟨{ book with defaults := dictInsert book.defaults r none }, ?_, ?_, ?_⟩
  · unfold RecipeBook.set_default_recipe
    rw [h]
    simp
  · unfold RecipeBook.get_recipe_for
    simp [dictLookup_dictInsert]
  · unfold RecipeBook.is_raw_resource RecipeBook.get_recipe_for
    simp [dictLookup_dictInsert]

/-- Witness for C10 on the byproduct-cycle book, whose resource `y` is
produced by recipe `A`. -/
theorem set_default_none_forces_raw_witness :
    ∃ book2, bookCycle.set_default_recipe "y" none = Except.ok book2 ∧
      book2.get_recipe_for "y" = none ∧ book2.is_raw_resource "y" = true :=
  set_default_none_forces_raw bookCycle "y" (by decide)

/-! ### C8 -/

/-- C8: for a recipe with positive duration, positive crafter efficiencies
(or no crafters, i.e. efficiency 1), and an output resource `r` with
positive per-batch quantity that is not also an input, `batches_required`
is the inverse of `produced`; and for a resource the recipe neither
consumes nor produces, `batches_required` is 0. -/
theorem batches_required_inverse (R : Recipe) (r : String) (q o : ℚ)
    (hd : 0 < R.duration) (he : ∀ c ∈ R.crafters, 0 < c.efficiency)
    (ho : dictLookup R.outputs r = some o) (hop : 0 < o)
    (hni : dictLookup R.inputs r = none) :
    R.produced r (R.batches_required r q) = q ∧
    (∀ s, dictLookup R.inputs s = none → dictLookup R.outputs s = none →
      R.batches_required s q = 0) := by
  have heff : 0 < R.efficiency := by
    unfold Recipe.efficiency
    cases hc : R.crafters with
    | nil => norm_num
    | cons c cs => exact he c (by rw [hc]; exact List.mem_cons_self c cs)
  constructor
  · unfold Recipe.produced Recipe.batches_required
    rw [hni, ho]
    simp only [Option.getD_some]
    have h1 : o ≠ 0 := ne_of_gt hop
    have h2 : R.efficiency ≠ 0 := ne_of_gt heff
    have h3 : R.duration ≠ 0 := ne_of_gt hd
    field_simp
    ring
  · intro s hs1 hs2
    unfold Recipe.batches_required
    rw [hs1, hs2]

/-- A recipe with a crafter, for the C8 witness: 2 ore per batch in, 1
iron per batch out, duration 2, crafted by a furnace of efficiency 3. -/
def smeltR : Recipe := ⟨"smelt", [("ore", 2)], [("iron", 1)], 2, [⟨"furnace", 3⟩]⟩

/-- Witness for C8 on `smeltR` at quantity 7, plus the zero case at the
untouched resource `coal`. -/
theorem batches_required_inverse_witness :
    smeltR.produced "iron" (smeltR.batches_required "iron" 7) = 7 ∧
    smeltR.batches_required "coal" 7 = 0 :=
  ⟨(batches_required_inverse smeltR "iron" 7 1 (by norm_num [smeltR])
      (by
        intro c hc
        simp [smeltR] at hc
        subst hc
        norm_num)
      (by with_unfolding_all decide) (by norm_num)
      (by with_unfolding_all decide)).1,
    (batches_required_inverse smeltR "iron" 7 1 (by norm_num [smeltR])
      (by
        intro c hc
        simp [smeltR] at hc
        subst hc
        norm_num)
      (by with_unfolding_all decide) (by norm_num)
      (by with_unfolding_all decide)).2 "coal" (by with_unfolding_all decide)
      (by with_unfolding_all decide)⟩

/-! ### C3 -/

/-- First of two recipes producing `ore`. -/
def twinA : Recipe := ⟨"mineA", [], [("ore", 1)], 1, []⟩

/-- Second of two recipes producing `ore`. -/
def twinB : Recipe := ⟨"mineB", [], [("ore", 1)], 1, []⟩

/-- A book in which resource `ore` has two producing recipes and no
default. -/
def bookTwin : RecipeBook := ⟨[twinA, twinB], ["ore"], []⟩

/-- C3 counterexample: `ore` has two producers and no recorded default,
yet after a `get_recipe_for` call the book is unchanged — in particular
the defaults map still has no entry for `ore`, refuting the claim that
the selection is cached as the new default. -/
theorem get_recipe_for_no_caching :
    2 ≤ (bookTwin.recipes.filter (fun rec => rec.produces "ore")).length ∧
    dictLookup bookTwin.defaults "ore" = none ∧
    (bookTwin.get_recipe_for_call "ore").2 = bookTwin ∧
    dictLookup (bookTwin.get_recipe_for_call "ore").2.defaults "ore" = none := by
  with_unfolding_all decide

/-- C3 amended: with no default recorded and at least two producing
recipes, `get_recipe_for` of src/calculator/book.py returns the first
producing recipe in book insertion order but leaves the book — in
particular its defaults map — unchanged; a repeated call re-runs the same
selection and returns the same recipe. -/
theorem get_recipe_for_selection_uncached (b : RecipeBook) (r : String)
    (hd : dictLookup b.defaults r = none) (p : Recipe) (rest : List Recipe)
    (hf : b.recipes.filter (fun rec => rec.produces r) = p :: rest)
    (_hmulti : rest ≠ []) :
    (b.get_recipe_for_call r).1 = some p ∧
    (b.get_recipe_for_call r).2 = b ∧
    ((b.get_recipe_for_call r).2.get_recipe_for_call r).1 = some p := by
  unfold RecipeBook.get_recipe_for_call
  simp [hd, hf]

/-- Witness for the amended C3 on the two-producer book. -/
theorem get_recipe_for_selection_uncached_witness :
    (bookTwin.get_recipe_for_call "ore").1 = some twinA ∧
    (bookTwin.get_recipe_for_call "ore").2 = bookTwin ∧
    ((bookTwin.get_recipe_for_call "ore").2.get_recipe_for_call "ore").1 = some twinA :=
  get_recipe_for_selection_uncached bookTwin "ore" (by decide) twinA [twinB]
    (by with_unfolding_all rfl) (by decide)

/-! ### C9 -/

/-- Unfolding: the worklist loop with an empty pending list returns
immediately. -/
theorem propagateAux_nil (book : RecipeBook) (rb rr : Bool) (fuel : ℕ) (changed : Bool)
    (calcs : Calculations) :
    propagateAux book rb rr fuel [] changed calcs = some (calcs, changed) := by
  cases fuel <;> rfl

/-- Unfolding: the worklist loop with exhausted fuel and work left
returns `none`. -/
theorem propagateAux_zero (book : RecipeBook) (rb rr : Bool) (name : String)
    (rest : List String) (changed : Bool) (calcs : Calculations) :
    propagateAux book rb rr 0 (name :: rest) changed calcs = none := rfl

/-- Unfolding: one pop of the worklist loop. -/
theorem propagateAux_succ (book : RecipeBook) (rb rr : Bool) (fuel : ℕ) (name : String)
    (rest : List String) (changed : Bool) (calcs : Calculations) :
    propagateAux book rb rr (fuel + 1) (name :: rest) changed calcs =
      match book.get name with
      | none => none
      | some recipe =>
        propagateAux book rb rr fuel (runRecipe book rb rr recipe rest calcs).1
          (changed || (runRecipe book rb rr recipe rest calcs).2.1)
          (runRecipe book rb rr recipe rest calcs).2.2 := rfl

/-- The seeding loop never rewrites the stored targets and never touches
the `available` side of the ledger. -/
theorem seedTargets_frame (book : RecipeBook) :
    ∀ (ts : List (String × ℚ)) (calcs calcs' : Calculations),
      seedTargets book ts calcs = Except.ok calcs' →
      calcs'.targets = calcs.targets ∧ calcs'.ar.available = calcs.ar.available := by
  intro ts
  induction ts with
  | nil =>
    intro calcs calcs' h
    obtain rfl : calcs = calcs' := Except.ok.inj h
    exact ⟨rfl, rfl⟩
  | cons t rest ih =>
    intro calcs calcs' h
    obtain ⟨target, required⟩ := t
    by_cases hres : book.is_resource target
    · cases hg : book.get_recipe_for target with
      | none =>
        simp only [seedTargets, hres, if_true, hg] at h
        have := ih _ _ h
        rwa [use_available] at this
      | some recipe =>
        simp only [seedTargets, hres, if_true, hg] at h
        have := ih _ _ h
        rwa [use_available] at this
    · by_cases hrec : book.is_recipe target
      · simp only [seedTargets, hres, hrec, Bool.false_eq_true, if_true, if_false,
          ite_false, ite_true] at h
        have := ih _ _ h
        exact this
      · simp only [seedTargets, hres, hrec, Bool.false_eq_true, if_false, ite_false] at h
        exact absurd h (by simp)

/-- Processing the inputs of a recipe touches the ledger only through
`use`, which never writes the `available` map. -/
theorem processInputs_available (book : RecipeBook) (rr : Bool) (recipe : Recipe)
    (batches : ℚ) :
    ∀ (inputs : List (String × ℚ)) (pending : List String) (ar : AvailableResources)
      (res : List (String × (ℚ × ℚ))),
      ((processInputs book rr recipe batches inputs pending ar res).2.1).available =
        ar.available := by
  intro inputs
  induction inputs with
  | nil => intro pending ar res; rfl
  | cons p rest ih =>
    intro pending ar res
    obtain ⟨resource, qty⟩ := p
    cases hg : book.get_recipe_for resource with
    | none =>
      simp only [processInputs, hg]
      rw [ih]
      exact use_available ar resource _
    | some r2 =>
      simp only [processInputs, hg]
      rw [ih]
      exact use_available ar resource _

/-- One pop of the worklist loop rewrites neither the stored targets nor
the `available` map. -/
theorem runRecipe_frame (book : RecipeBook) (rb rr : Bool) (recipe : Recipe)
    (rest : List String) (calcs : Calculations) :
    ((runRecipe book rb rr recipe rest calcs).2.2).targets = calcs.targets ∧
    ((runRecipe book rb rr recipe rest calcs).2.2).ar.available = calcs.ar.available := by
  unfold runRecipe
  dsimp only
  split <;> split
  all_goals
    first
      | exact ⟨rfl, rfl⟩
      | exact ⟨rfl, processInputs_available book rr recipe _ recipe.inputs rest calcs.ar
          calcs.resources⟩

/-- The worklist loop as a whole preserves the stored targets and the
`available` map. -/
theorem propagateAux_frame (book : RecipeBook) (rb rr : Bool) :
    ∀ (fuel : ℕ) (pending : List String) (changed : Bool) (calcs : Calculations)
      (out : Calculations × Bool),
      propagateAux book rb rr fuel pending changed calcs = some out →
      out.1.targets = calcs.targets ∧ out.1.ar.available = calcs.ar.available := by
  intro fuel
  induction fuel with
  | zero =>
    intro pending changed calcs out h
    cases pending with
    | nil =>
      rw [propagateAux_nil] at h
      obtain rfl : (calcs, changed) = out := Option.some.inj h
      exact ⟨rfl, rfl⟩
    | cons name rest =>
      rw [propagateAux_zero] at h
      exact absurd h (by simp)
  | succ fuel ih =>
    intro pending changed calcs out h
    cases pending with
    | nil =>
      rw [propagateAux_nil] at h
      obtain rfl : (calcs, changed) = out := Option.some.inj h
      exact ⟨rfl, rfl⟩
    | cons name rest =>
      rw [propagateAux_succ] at h
      cases hg : book.get name with
      | none => rw [hg] at h; exact absurd h (by simp)
      | some recipe =>
        rw [hg] at h
        have h1 := ih _ _ _ _ h
        have h2 := runRecipe_frame book rb rr recipe rest calcs
        exact ⟨h1.1.trans h2.1, h1.2.trans h2.2⟩

/-- Unfolding: the last allowed iteration of the bounded loop. -/
theorem calcLoop_one (book : RecipeBook) (rb rr : Bool) (fuel : ℕ) (calcs : Calculations) :
    calcLoop book rb rr fuel 1 calcs =
      match propagate book rb rr fuel calcs with
      | none => none
      | some (calcs', changed) =>
        if changed then some (calcs', true, 1) else some (calcs', false, 1) := by
  rw [calcLoop]

/-- Unfolding: an iteration of the bounded loop with budget left. -/
theorem calcLoop_two (book : RecipeBook) (rb rr : Bool) (fuel m : ℕ)
    (calcs : Calculations) :
    calcLoop book rb rr fuel (m + 2) calcs =
      match propagate book rb rr fuel calcs with
      | none => none
      | some (calcs', changed) =>
        if changed then
          match calcLoop book rb rr fuel (m + 1) calcs' with
          | none => none
          | some (c, w, k) => some (c, w, k + 1)
        else some (calcs', false, 1) := by
  rw [calcLoop]

/-- The bounded iteration loop preserves the stored targets and the
`available` map. -/
theorem calcLoop_frame (book : RecipeBook) (rb rr : Bool) (fuel : ℕ) :
    ∀ (n : ℕ) (calcs : Calculations) (out : Calculations × Bool × ℕ),
      calcLoop book rb rr fuel n calcs = some out →
      out.1.targets = calcs.targets ∧ out.1.ar.available = calcs.ar.available := by
  intro n
  induction n with
  | zero =>
    intro calcs out h
    obtain rfl : (calcs, false, 0) = out := Option.some.inj h
    exact ⟨rfl, rfl⟩
  | succ n ih =>
    intro calcs out h
    cases hp : propagate book rb rr fuel calcs with
    | none =>
      cases n with
      | zero => rw [calcLoop_one, hp] at h; exact absurd h (by simp)
      | succ m => rw [calcLoop_two, hp] at h; exact absurd h (by simp)
    | some cw =>
      obtain ⟨calcs', changed⟩ := cw
      have hframe : calcs'.targets = calcs.targets ∧
          calcs'.ar.available = calcs.ar.available :=
        propagateAux_frame book rb rr fuel _ false calcs (calcs', changed) hp
      by_cases hch : changed = true
      · subst hch
        cases n with
        | zero =>
          rw [calcLoop_one, hp] at h
          simp only [if_true] at h
          obtain rfl : (calcs', true, 1) = out := Option.some.inj h
          exact hframe
        | succ m =>
          rw [calcLoop_two, hp] at h
          simp only [if_true] at h
          cases hl : calcLoop book rb rr fuel (m + 1) calcs' with
          | none => rw [hl] at h; exact absurd h (by simp)
          | some o =>
            rw [hl] at h
            obtain ⟨c, w, k⟩ := o
            obtain rfl : (c, w, k + 1) = out := Option.some.inj h
            have := ih _ _ hl
            exact ⟨this.1.trans hframe.1, this.2.trans hframe.2⟩
      · simp only [Bool.not_eq_true] at hch
        subst hch
        cases n with
        | zero =>
          rw [calcLoop_one, hp] at h
          simp only [Bool.false_eq_true, if_false] at h
          obtain rfl : (calcs', false, 1) = out := Option.some.inj h
          exact hframe
        | succ m =>
          rw [calcLoop_two, hp] at h
          simp only [Bool.false_eq_true, if_false] at h
          obtain rfl : (calcs', false, 1) = out := Option.some.inj h
          exact hframe

theorem calculate_frame (book : RecipeBook) (targets avail : List (String × ℚ))
    (rb rr : Bool) (mi fuel : ℕ) (cw : Calculations × Bool)
    (h : calculate book targets avail rb rr mi fuel = Except.ok (some cw)) :
    cw.1.targets = targets ∧ cw.1.ar.available = avail := by
  unfold calculate at h
  cases hs : seedTargets book targets
      { targets := targets, ar := ⟨avail, []⟩, recipes := [], resources := [] } with
  | error e =>
    rw [hs] at h
    exact absurd h (by simp)
  | ok calcs =>
    rw [hs] at h
    have h' : (match calcLoop book rb rr fuel mi calcs with
        | none => Except.ok none
        | some (c, warned, _) => Except.ok (some (c, warned))) =
        Except.ok (some cw) := h
    cases hl : calcLoop book rb rr fuel mi calcs with
    | none => rw [hl] at h'; exact absurd h' (by simp)
    | some o =>
      rw [hl] at h'
      obtain ⟨c, w, k⟩ := o
      obtain rfl : (c, w) = cw := Option.some.inj (Except.ok.inj h')
      have h1 := seedTargets_frame book targets _ _ hs
      have h2 := calcLoop_frame book rb rr fuel mi calcs (c, w, k) hl
      exact ⟨h2.1.trans h1.1, h2.2.trans h1.2⟩

/-- The normal return of the C6 round-trip run, spelled out. -/
def plankRun : Calculations × Bool :=
  ({ targets := [("plank", 10)], ar := ⟨[("wood", 5)], [("wood", 5)]⟩,
     recipes := [("R", (0, 10))],
     resources := [("plank", (10, 10)), ("wood", (15, 15))] }, false)

/-- Witness for C9 on the round-trip run. -/
theorem calculate_frame_witness :
    plankRun.1.targets = [("plank", (10 : ℚ))] ∧
    plankRun.1.ar.available = [("wood", (5 : ℚ))] :=
  calculate_frame bookPlank [("plank", 10)] [("wood", 5)] false false 10 20 plankRun
    (by with_unfolding_all rfl)

/-! ### C7 -/

/-- Worklist state just before each pop of recipe `A` in the amplifying
run: `a` is both the required batches of `A` and the produced amount of
`y`, `dy` the demand for `y`, and `dx` the balanced demand/production of
`x` (also the required batches of `B`). -/
def ampStateA (a dy dx : ℚ) : Calculations :=
  { targets := [("y", 1)], ar := ⟨[], []⟩,
    recipes := [("A", (0, a)), ("B", (0, dx))],
    resources := [("y", (dy, a)), ("x", (dx, dx))] }

/-- Worklist state just before each pop of recipe `B` in the amplifying
run: `y` is balanced at `p`, while `x` has demand `q + h` against
production `q`. -/
def ampStateB (p q h : ℚ) : Calculations :=
  { targets := [("y", 1)], ar := ⟨[], []⟩,
    recipes := [("A", (0, p)), ("B", (0, q))],
    resources := [("y", (p, p)), ("x", (q + h, q))] }

/-- One pop of `A` from an `A`-state: the gap `dy - a` in `y` forces
`dy - a` further batches of `A`, consuming `2 (dy - a)` of `x` and
re-queueing `B`. -/
theorem amp_stepA (a dy dx : ℚ) (h0 : 0 ≤ a) (h1 : a < dy) :
    runRecipe bookAmp false false ampA [] (ampStateA a dy dx) =
      (["B"], true, ampStateB dy dx (2 * (dy - a))) := by
  have hyA : bookAmp.get_recipe_for "y" = some ampA := by with_unfolding_all rfl
  have hxB : bookAmp.get_recipe_for "x" = some ampB := by with_unfolding_all rfl
  have hnle : ¬ (dy ≤ a) := not_le.mpr h1
  have hne : ¬ (dy - a = 0) := by intro hc; apply hnle; linarith
  have hbr : ampA.batches_required "y" (dy - a) = dy - a := by
    unfold Recipe.batches_required
    have e1 : dictLookup ampA.inputs "y" = none := by with_unfolding_all rfl
    have e2 : dictLookup ampA.outputs "y" = some 1 := by with_unfolding_all rfl
    rw [e1, e2]
    norm_num [Recipe.efficiency, ampA]
  have hcons : ampA.consumed "x" (dy - a) = 2 * (dy - a) := by
    unfold Recipe.consumed
    have e1 : dictLookup ampA.inputs "x" = some 2 := by with_unfolding_all rfl
    rw [e1]
    norm_num [Recipe.efficiency, ampA]
  have hprod : ampA.produced "y" (dy - a) = dy - a := by
    unfold Recipe.produced
    have e1 : dictLookup ampA.outputs "y" = some 1 := by with_unfolding_all rfl
    rw [e1]
    norm_num [Recipe.efficiency, ampA]
  have hcb : computeBatches bookAmp ampA [("y", (dy, a)), ("x", (dx, dx))] ampA.outputs
      (max 0 (0 - a)) = dy - a := by
    have hmax0 : max 0 ((0 : ℚ) - a) = 0 := by
      rw [zero_sub]
      exact max_eq_left (neg_nonpos.mpr h0)
    rw [hmax0]
    show computeBatches bookAmp ampA [("y", (dy, a)), ("x", (dx, dx))] [("y", 1)] 0 = dy - a
    simp only [computeBatches, dictLookup, hyA]
    simp [hnle, hbr]
    linarith
  have huse : (⟨[], []⟩ : AvailableResources).use "x" (2 * (dy - a)) =
      (2 * (dy - a), (⟨[], []⟩ : AvailableResources)) := by
    have hpos : (0 : ℚ) < 2 * (dy - a) := by linarith
    unfold AvailableResources.use
    rw [if_pos hpos]
    rfl
  have hpi : processInputs bookAmp false ampA (dy - a) ampA.inputs []
      (⟨[], []⟩ : AvailableResources) [("y", (dy, a)), ("x", (dx, dx))] =
      (["B"], (⟨[], []⟩ : AvailableResources),
        [("y", (dy, a)), ("x", (dx + 2 * (dy - a), dx))]) := by
    show processInputs bookAmp false ampA (dy - a) [("x", 2)] []
      (⟨[], []⟩ : AvailableResources) [("y", (dy, a)), ("x", (dx, dx))] = _
    simp only [processInputs, hcons, huse, hxB, dictLookup, dictInsert, addPending]
    simp [ampB]
    simp [huse]
  have hpo : processOutputs false ampA (dy - a) ampA.outputs
      [("y", (dy, a)), ("x", (dx + 2 * (dy - a), dx))] =
      [("y", (dy, a + (dy - a))), ("x", (dx + 2 * (dy - a), dx))] := by
    show processOutputs false ampA (dy - a) [("y", 1)]
      [("y", (dy, a)), ("x", (dx + 2 * (dy - a), dx))] = _
    simp only [processOutputs, hprod, dictLookup, dictInsert]
    simp
  have hbase : dictLookup ([("A", ((0 : ℚ), a)), ("B", ((0 : ℚ), dx))]) ampA.name =
      some (0, a) := by
    simp [ampA, dictLookup]
  simp only [runRecipe, ampStateA]
  simp only [hbase, Option.getD_some]
  simp only [Bool.false_eq_true, if_false, ite_false]
  rw [hcb]
  rw [if_neg hne]
  rw [hpi]
  dsimp only
  rw [hpo]
  simp [ampStateB, ampA, dictInsert]

/-- One pop of `B` from a `B`-state: the gap `h` in `x` forces `h`
further batches of `B`, consuming `2 h` of `y` and re-queueing `A`. -/
theorem amp_stepB (p q h : ℚ) (h1 : 0 ≤ q) (h2 : 0 < h) :
    runRecipe bookAmp false false ampB [] (ampStateB p q h) =
      (["A"], true, ampStateA p (p + 2 * h) (q + h)) := by
  have hyA : bookAmp.get_recipe_for "y" = some ampA := by with_unfolding_all rfl
  have hxB : bookAmp.get_recipe_for "x" = some ampB := by with_unfolding_all rfl
  have hnle : ¬ (q + h ≤ q) := by linarith
  have hne : ¬ (q + h - q = 0) := by intro hc; linarith
  have hbr : ampB.batches_required "x" h = h := by
    unfold Recipe.batches_required
    have e1 : dictLookup ampB.inputs "x" = none := by with_unfolding_all rfl
    have e2 : dictLookup ampB.outputs "x" = some 1 := by with_unfolding_all rfl
    rw [e1, e2]
    norm_num [Recipe.efficiency, ampB]
  have hcons : ampB.consumed "y" (q + h - q) = 2 * (q + h - q) := by
    unfold Recipe.consumed
    have e1 : dictLookup ampB.inputs "y" = some 2 := by with_unfolding_all rfl
    rw [e1]
    norm_num [Recipe.efficiency, ampB]
  have hprod : ampB.produced "x" (q + h - q) = q + h - q := by
    unfold Recipe.produced
    have e1 : dictLookup ampB.outputs "x" = some 1 := by with_unfolding_all rfl
    rw [e1]
    norm_num [Recipe.efficiency, ampB]
  have hcb : computeBatches bookAmp ampB [("y", (p, p)), ("x", (q + h, q))] ampB.outputs
      (max 0 (0 - q)) = q + h - q := by
    have hmax0 : max 0 ((0 : ℚ) - q) = 0 := by
      rw [zero_sub]
      exact max_eq_left (neg_nonpos.mpr h1)
    rw [hmax0]
    show computeBatches bookAmp ampB [("y", (p, p)), ("x", (q + h, q))] [("x", 1)] 0 =
      q + h - q
    simp only [computeBatches, dictLookup, hxB]
    simp [hnle, hbr]
    linarith
  have huse : (⟨[], []⟩ : AvailableResources).use "y" (2 * h) =
      (2 * h, (⟨[], []⟩ : AvailableResources)) := by
    have hpos : (0 : ℚ) < 2 * h := by linarith
    unfold AvailableResources.use
    rw [if_pos hpos]
    rfl
  have hpi : processInputs bookAmp false ampB (q + h - q) ampB.inputs []
      (⟨[], []⟩ : AvailableResources) [("y", (p, p)), ("x", (q + h, q))] =
      (["A"], (⟨[], []⟩ : AvailableResources),
        [("y", (p + 2 * (q + h - q), p)), ("x", (q + h, q))]) := by
    show processInputs bookAmp false ampB (q + h - q) [("y", 2)] []
      (⟨[], []⟩ : AvailableResources) [("y", (p, p)), ("x", (q + h, q))] = _
    simp only [processInputs, hcons, huse, hyA, dictLookup, dictInsert, addPending]
    simp [ampA, huse]
  have hpo : processOutputs false ampB (q + h - q) ampB.outputs
      [("y", (p + 2 * (q + h - q), p)), ("x", (q + h, q))] =
      [("y", (p + 2 * (q + h - q), p)), ("x", (q + h, q + (q + h - q)))] := by
    show processOutputs false ampB (q + h - q) [("x", 1)]
      [("y", (p + 2 * (q + h - q), p)), ("x", (q + h, q))] = _
    simp only [processOutputs, hprod, dictLookup, dictInsert]
    simp
  have hbase : dictLookup ([("A", ((0 : ℚ), p)), ("B", ((0 : ℚ), q))]) ampB.name =
      some (0, q) := by
    simp [ampB, dictLookup]
  simp only [runRecipe, ampStateB]
  simp only [hbase, Option.getD_some]
  simp only [Bool.false_eq_true, if_false, ite_false]
  rw [hcb]
  rw [if_neg hne]
  rw [hpi]
  dsimp only
  rw [hpo]
  simp [ampStateA, ampB, dictInsert]

/-- The amplifying run alternates between `A`-states and `B`-states with
a strictly positive gap forever, so no fuel bound suffices for the
worklist loop. -/
theorem amp_diverges (n : ℕ) :
    (∀ (a dy dx : ℚ) (ch : Bool), 0 ≤ a → a < dy → 0 ≤ dx →
      propagateAux bookAmp false false n ["A"] ch (ampStateA a dy dx) = none) ∧
    (∀ (p q h : ℚ) (ch : Bool), 0 ≤ p → 0 ≤ q → 0 < h →
      propagateAux bookAmp false false n ["B"] ch (ampStateB p q h) = none) := by
  have hgA : bookAmp.get "A" = some ampA := by with_unfolding_all rfl
  have hgB : bookAmp.get "B" = some ampB := by with_unfolding_all rfl
  induction n with
  | zero =>
    constructor
    · intro a dy dx ch _ _ _
      rfl
    · intro p q h ch _ _ _
      rfl
  | succ n ih =>
    constructor
    · intro a dy dx ch ha hady hdx
      rw [propagateAux_succ, hgA]
      show propagateAux bookAmp false false n
        (runRecipe bookAmp false false ampA [] (ampStateA a dy dx)).1
        (ch || (runRecipe bookAmp false false ampA [] (ampStateA a dy dx)).2.1)
        (runRecipe bookAmp false false ampA [] (ampStateA a dy dx)).2.2 = none
      rw [amp_stepA a dy dx ha hady]
      show propagateAux bookAmp false false n ["B"] (ch || true)
        (ampStateB dy dx (2 * (dy - a))) = none
      exact ih.2 dy dx (2 * (dy - a)) (ch || true) (ha.trans hady.le) hdx (by linarith)
    · intro p q h ch hp hq hh
      rw [propagateAux_succ, hgB]
      show propagateAux bookAmp false false n
        (runRecipe bookAmp false false ampB [] (ampStateB p q h)).1
        (ch || (runRecipe bookAmp false false ampB [] (ampStateB p q h)).2.1)
        (runRecipe bookAmp false false ampB [] (ampStateB p q h)).2.2 = none
      rw [amp_stepB p q h hq hh]
      show propagateAux bookAmp false false n ["A"] (ch || true)
        (ampStateA p (p + 2 * h) (q + h)) = none
      exact ih.1 p (p + 2 * h) (q + h) (ch || true) hp (by linarith) (by linarith)

/-- The state seeded by `calculate` on the amplifying book with target
`1 y`. -/
def ampSeed : Calculations :=
  { targets := [("y", 1)], ar := ⟨[], []⟩,
    recipes := [("A", (0, 0))], resources := [("y", (1, 0))] }

/-- The state after the first pop of `A` in the amplifying run. -/
def ampMid : Calculations :=
  { targets := [("y", 1)], ar := ⟨[], []⟩,
    recipes := [("A", (0, 1))], resources := [("y", (1, 1)), ("x", (2, 0))] }

/-- From the seeded state the worklist loop runs out of any amount of
fuel: two concrete pops reach the state family of `amp_diverges`. -/
theorem amp_init (n : ℕ) :
    propagateAux bookAmp false false n ["A"] false ampSeed = none := by
  have hgA : bookAmp.get "A" = some ampA := by with_unfolding_all rfl
  have hgB : bookAmp.get "B" = some ampB := by with_unfolding_all rfl
  have hs1 : runRecipe bookAmp false false ampA [] ampSeed = (["B"], true, ampMid) := by
    with_unfolding_all rfl
  have hs2 : runRecipe bookAmp false false ampB [] ampMid =
      (["A"], true, ampStateA 1 5 2) := by
    with_unfolding_all rfl
  cases n with
  | zero => rfl
  | succ n =>
    rw [propagateAux_succ, hgA]
    show propagateAux bookAmp false false n
      (runRecipe bookAmp false false ampA [] ampSeed).1
      (false || (runRecipe bookAmp false false ampA [] ampSeed).2.1)
      (runRecipe bookAmp false false ampA [] ampSeed).2.2 = none
    rw [hs1]
    show propagateAux bookAmp false false n ["B"] (false || true) ampMid = none
    cases n with
    | zero => rfl
    | succ m =>
      rw [propagateAux_succ, hgB]
      show propagateAux bookAmp false false m
        (runRecipe bookAmp false false ampB [] ampMid).1
        ((false || true) || (runRecipe bookAmp false false ampB [] ampMid).2.1)
        (runRecipe bookAmp false false ampB [] ampMid).2.2 = none
      rw [hs2]
      show propagateAux bookAmp false false m ["A"] ((false || true) || true)
        (ampStateA 1 5 2) = none
      exact (amp_diverges m).1 1 5 2 _ (by norm_num) (by norm_num) (by norm_num)

/-- If a propagation pass runs out of fuel, the bounded loop reports
fuel exhaustion as well. -/
theorem calcLoop_none (book : RecipeBook) (rb rr : Bool) (fuel n : ℕ)
    (calcs : Calculations) (h : propagate book rb rr fuel calcs = none) :
    calcLoop book rb rr fuel (n + 1) calcs = none := by
  cases n with
  | zero => rw [calcLoop_one, h]
  | succ m => rw [calcLoop_two, h]

/-- C7 counterexample: on the amplifying cycle `A {2 x} -> {1 y}`,
`B {2 y} -> {1 x}` with target `1 y`, the first propagation pass never
finishes — for every fuel bound the run reports fuel exhaustion — so the
source's `calculate`, whose inner worklist loop is unbounded, does not
terminate on this valid input. -/
theorem calculate_can_fail_to_terminate :
    ¬ ∃ n : ℕ, calculate bookAmp [("y", 1)] [] false false 10 n ≠ Except.ok none := by
  rintro ⟨n, hn⟩
  apply hn
  have hseed : seedTargets bookAmp [("y", 1)]
      { targets := [("y", 1)], ar := ⟨[], []⟩, recipes := [], resources := [] } =
      Except.ok ampSeed := by
    with_unfolding_all rfl
  have hprop : propagate bookAmp false false n ampSeed = none := by
    show propagateAux bookAmp false false n (ampSeed.recipes.map Prod.fst) false ampSeed
      = none
    show propagateAux bookAmp false false n ["A"] false ampSeed = none
    exact amp_init n
  have hloop : calcLoop bookAmp false false n 10 ampSeed = none :=
    calcLoop_none bookAmp false false n 9 ampSeed hprop
  unfold calculate
  rw [hseed]
  show (match calcLoop bookAmp false false n 10 ampSeed with
    | none => Except.ok none
    | some (c, warned, _) => Except.ok (some (c, warned))) = Except.ok none
  rw [hloop]

/-- C7 amended: every run of the bounded loop invokes the propagation
step at most `max_iterations` times, stops as soon as a step reports no
change, and emits the non-fatal warning exactly when all
`max_iterations` invocations ran and the last one still reported a
change — the (possibly suboptimal) result is returned either way. -/
theorem calcLoop_invocation_bound (book : RecipeBook) (rb rr : Bool) (fuel : ℕ) :
    ∀ (n : ℕ) (calcs c : Calculations) (w : Bool) (k : ℕ),
      calcLoop book rb rr fuel n calcs = some (c, w, k) →
      k ≤ n ∧ (w = true → k = n) := by
  intro n
  induction n with
  | zero =>
    intro calcs c w k h
    simp only [calcLoop, Option.some.injEq, Prod.mk.injEq] at h
    obtain ⟨-, hw, hk⟩ := h
    subst hk
    exact ⟨Nat.le_refl 0, fun hc => absurd (hw.trans hc) (by simp)⟩
  | succ n ih =>
    intro calcs c w k h
    cases hp : propagate book rb rr fuel calcs with
    | none =>
      cases n with
      | zero => rw [calcLoop_one, hp] at h; exact absurd h (by simp)
      | succ m => rw [calcLoop_two, hp] at h; exact absurd h (by simp)
    | some cw =>
      obtain ⟨calcs', changed⟩ := cw
      by_cases hch : changed = true
      · subst hch
        cases n with
        | zero =>
          rw [calcLoop_one, hp] at h
          simp only [if_true, Option.some.injEq, Prod.mk.injEq] at h
          obtain ⟨-, hw, hk⟩ := h
          subst hk
          exact ⟨Nat.le_refl 1, fun _ => rfl⟩
        | succ m =>
          rw [calcLoop_two, hp] at h
          simp only [if_true] at h
          cases hl : calcLoop book rb rr fuel (m + 1) calcs' with
          | none => rw [hl] at h; exact absurd h (by simp)
          | some o =>
            rw [hl] at h
            obtain ⟨c2, w2, k2⟩ := o
            simp only [Option.some.injEq, Prod.mk.injEq] at h
            obtain ⟨-, hw, hk⟩ := h
            subst hk
            have hih := ih calcs' c2 w2 k2 hl
            constructor
            · exact Nat.succ_le_succ hih.1
            · intro hwt
              rw [hih.2 (hw.trans hwt)]
      · simp only [Bool.not_eq_true] at hch
        subst hch
        cases n with
        | zero =>
          rw [calcLoop_one, hp] at h
          simp only [Bool.false_eq_true, if_false, Option.some.injEq,
            Prod.mk.injEq] at h
          obtain ⟨-, hw, hk⟩ := h
          subst hk
          exact ⟨Nat.le_refl 1, fun hc => absurd (hw.trans hc) (by simp)⟩
        | succ m =>
          rw [calcLoop_two, hp] at h
          simp only [Bool.false_eq_true, if_false, Option.some.injEq,
            Prod.mk.injEq] at h
          obtain ⟨-, hw, hk⟩ := h
          subst hk
          exact ⟨Nat.succ_le_succ (Nat.zero_le (m + 1)),
            fun hc => absurd (hw.trans hc) (by simp)⟩

/-- Witness for the amended C7 on the round-trip book: the loop converges
after 2 of the allowed 10 invocations, without the warning. -/
theorem calcLoop_invocation_bound_witness : (2 : ℕ) ≤ 10 ∧ (false = true → (2 : ℕ) = 10) :=
  calcLoop_invocation_bound bookPlank false false 20 10
    { targets := [("plank", 10)], ar := ⟨[("wood", 5)], []⟩,
      recipes := [("R", (0, 0))], resources := [("plank", (10, 0))] }
    { targets := [("plank", 10)], ar := ⟨[("wood", 5)], [("wood", 5)]⟩,
      recipes := [("R", (0, 10))],
      resources := [("plank", (10, 10)), ("wood", (15, 15))] }
    false 2 (by with_unfolding_all rfl)
